import Mathlib

/-!
Verification of the Victron BLE HTTP gateway script
(`victron-ble-http-gateway.js`).

The script is a single-threaded, event-driven JavaScript program for a
Shelly device.  We give a shallow embedding:

* pure helpers of the script (`hex`, `hasMfg`, `applyBackoff`,
  `cleanupLastSent`, address normalisation, the body of `httpCallback`,
  `resetBusy`, `send`, `onBle`) become Lean functions translated
  statement-by-statement from the source;
* the script's global variables become the record `GwVars`;
* the event loop (BLE advertisement events, timer expirations, HTTP
  completion callbacks, the periodic cleanup tick) becomes a step
  function on a system state `SysState` that carries, besides the
  globals, the runtime bookkeeping of the environment: the armed
  one-shot watchdog timers (`Timer.set` / `Timer.clear`), the HTTP
  calls whose continuation has not yet run, and the ghost list of
  accepted sends not yet resolved by their completion callback or by
  watchdog expiry;
* JavaScript string primitives used by the script (`toUpperCase`,
  `indexOf`, `charCodeAt(..).toString(16)`) are modelled on `String` /
  `List Char` for the ASCII data the script manipulates.

Timestamps are unix seconds as `Int` (`Math.floor(Date.now()/1000)`),
error codes are `Int`, counters are `Nat`.  The construction of the
JSON request body and all `print` logging are not modelled: no claim
concerns them and they write no program variable.
-/

namespace VictronGw

/-! ### JavaScript string primitives -/

/-- `needle` is a prefix of `hay` (step of the `indexOf` scan). -/
def strStartsWith : List Char → List Char → Bool
  | _, [] => true
  | [], _ :: _ => false
  | a :: as, b :: bs => a == b && strStartsWith as bs

/-- `hay` contains `needle` as a contiguous substring; models
`hay.indexOf(needle) !== -1` on JavaScript strings. -/
def containsSub : List Char → List Char → Bool
  | hay, needle =>
    strStartsWith hay needle ||
      match hay with
      | [] => false
      | _ :: t => containsSub t needle

/-- JavaScript `String.prototype.toUpperCase` on the ASCII strings the
script builds. -/
def jsToUpperCase (s : String) : String :=
  String.mk (s.data.map Char.toUpper)

/-- JavaScript `d.indexOf(p) !== -1`. -/
def jsContains (hay pat : String) : Bool :=
  containsSub hay.data pat.data

/-- JavaScript `n.toString(16)` for a non-negative integer: hexadecimal
digits, lower-case letters, no padding (`"0"` for `0`). -/
def hexDigits (n : Nat) : String :=
  String.mk (Nat.toDigits 16 n)

/-- The 2-digit padding applied in `hex` and `hasMfg`:
`h.length === 1 ? "0" + h : h`. -/
def pad2 (h : String) : String :=
  if h.length = 1 then "0" ++ h else h

/-- `hex(s)` from the source: per character, `charCodeAt` rendered as
2-digit hexadecimal, concatenated, upper-cased at the end.  The payload
is modelled as its list of character codes (bytes). -/
def hex (p : List Nat) : String :=
  jsToUpperCase (p.foldl (fun r c => r ++ pad2 (hexDigits c)) "")

/-- The pattern `"FF" + lo.toUpperCase() + hi.toUpperCase()` that
`hasMfg` searches for a given manufacturer id:
`lo = (id & 0xFF).toString(16)` and `hi = ((id >> 8) & 0xFF).toString(16)`,
each padded to 2 digits. -/
def mfgPat (id : Nat) : String :=
  "FF" ++ jsToUpperCase (pad2 (hexDigits (id &&& 0xFF)))
       ++ jsToUpperCase (pad2 (hexDigits ((id >>> 8) &&& 0xFF)))

/-- `hasMfg(d, ids)` from the source: an empty allow-list accepts
everything, otherwise scan the hex string `d` for the marker pattern of
some id. -/
def hasMfg (d : String) (ids : List Nat) : Bool :=
  if ids.length = 0 then true
  else ids.any (fun id => jsContains d (mfgPat id))

/-- The colon-insertion loop of `onBle`: `m.substr(i, 2)` chunks joined
by `":"`. -/
def insertColons : List Char → List Char
  | [] => []
  | [a] => [a]
  | a :: b :: rest =>
    match rest with
    | [] => [a, b]
    | _ :: _ => a :: b :: ':' :: insertColons rest

/-- Address normalisation of `onBle`: upper-case, and if the address
contains no `":"`, insert one after every two characters. -/
def normalizeAddr (a : String) : String :=
  let m := jsToUpperCase a
  if containsSub m.data [':'] then m else String.mk (insertColons m.data)

/-! ### The `lastSent` object

`lastSent` is a JavaScript object used as a map from MAC string to unix
timestamp; we model it as an association list in insertion order (the
order `for (let k in lastSent)` enumerates string keys). -/

/-- `lastSent[m]` (`none` when the key is absent). -/
def lookupLS (k : String) : List (String × Int) → Option Int
  | [] => none
  | (k', v) :: t => if k' = k then some v else lookupLS k t

/-- `lastSent[m] = now`: update in place if present, else append. -/
def upsert (k : String) (v : Int) : List (String × Int) → List (String × Int)
  | [] => [(k, v)]
  | (k', v') :: t => if k' = k then (k', v) :: t else (k', v') :: upsert k v t

/-- The comparator `function(a, b) { return b.age - a.age; }`: sort
descending by age.  Entries are `(mac, age)` pairs. -/
def byAgeDesc (a b : String × Int) : Prop := b.2 ≤ a.2

instance : DecidableRel byAgeDesc := fun a b => Int.decLe b.2 a.2

instance : IsTotal (String × Int) byAgeDesc := ⟨fun a b => le_total b.2 a.2⟩

instance : IsTrans (String × Int) byAgeDesc :=
  ⟨fun _ _ _ h1 h2 => le_trans h2 h1⟩

/-- `cleanupLastSent` from the source, parameterised by the configured
capacity `MAX_LASTSENT_ENTRIES`: no-op when the entry count is within
the bound, otherwise sort the `(mac, age)` pairs descending by age and
delete the first `count - max` macs. -/
def cleanupLastSent (maxE : Nat) (now : Int) (store : List (String × Int)) :
    List (String × Int) :=
  if store.length ≤ maxE then store
  else
    let oldest := (store.map (fun kv => (kv.1, now - kv.2))).insertionSort byAgeDesc
    let doomed := (oldest.take (store.length - maxE)).map Prod.fst
    store.filter (fun kv => !(doomed.contains kv.1))

/-! ### Script globals and the backoff / delivery functions -/

/-- The script's global variables (besides `lastSent` bookkeeping the
configuration constants are carried separately in `GwCfg`).  `gwMac`
only feeds the request body and is not modelled. -/
structure GwVars where
  busy : Bool
  lastSent : List (String × Int)
  currentMac : String
  busyTimer : Option Nat
  consecutiveErrors : Nat
  backoffUntil : Int
deriving DecidableEq, Repr

/-- An HTTP response object (`r`); only `r.code` is read by the
script's state updates. -/
structure HttpResp where
  code : Int
deriving DecidableEq, Repr

/-- `applyBackoff()` from the source; `now` is
`Math.floor(Date.now() / 1000)` at the moment the function runs. -/
def applyBackoff (now : Int) (v : GwVars) : GwVars :=
  if v.consecutiveErrors ≤ 3 then v
  else
    let backoffSec : Int := min 60 ((v.consecutiveErrors : Int) * 5)
    { v with backoffUntil := now + backoffSec }

/-- The global-variable effect of `httpCallback(r, e)`: clear `busy`
and `busyTimer`, then classify the outcome.  (The `Timer.clear` call on
the armed watchdog is an effect on the timer facility and is applied by
the system-level step.) -/
def httpCallbackVars (now : Int) (r : Option HttpResp) (e : Int) (v : GwVars) :
    GwVars :=
  let v := { v with busy := false, busyTimer := none }
  if e ≠ 0 then
    applyBackoff now { v with consecutiveErrors := v.consecutiveErrors + 1 }
  else
    match r with
    | some resp =>
      if resp.code ≠ 200 then
        applyBackoff now { v with consecutiveErrors := v.consecutiveErrors + 1 }
      else
        { v with consecutiveErrors := 0, backoffUntil := 0 }
    | none =>
      applyBackoff now { v with consecutiveErrors := v.consecutiveErrors + 1 }

/-- The global-variable effect of the watchdog callback `resetBusy()`. -/
def resetBusyVars (now : Int) (v : GwVars) : GwVars :=
  applyBackoff now
    { v with busy := false, busyTimer := none,
             consecutiveErrors := v.consecutiveErrors + 1 }

/-- Abbreviation for the common failure-path update: slot released and
`consecutiveErrors` incremented (the argument `applyBackoff` is applied
to on every failure branch). -/
def failBump (v : GwVars) : GwVars :=
  { v with busy := false, busyTimer := none,
           consecutiveErrors := v.consecutiveErrors + 1 }

/-! ### The event-driven system

The script runs on a single-threaded event loop: BLE advertisement
events, timer expirations and HTTP completion callbacks are dispatched
one at a time.  `SysState` pairs the script globals with the
environment's bookkeeping; `step` dispatches one event. -/

/-- User configuration block of the script. -/
structure GwCfg where
  MFG : List Nat
  RATE_LIMIT_SEC : Int
  MAX_LASTSENT_ENTRIES : Nat
deriving DecidableEq, Repr

/-- The values of the configuration constants in the source. -/
def defaultCfg : GwCfg :=
  { MFG := [0x0499, 0x0059, 0x0067, 0x02E1, 0x0F53]
    RATE_LIMIT_SEC := 5
    MAX_LASTSENT_ENTRIES := 50 }

/-- A BLE scan result object (`res`); fields absent in the event are
`none` (`advData` may also be present but empty). -/
structure BleRes where
  addr : Option String
  advData : Option (List Nat)
  rssi : Int
deriving DecidableEq, Repr

/-- The event-type tag `BLE.Scanner.SCAN_RESULT` (opaque constant of
the runtime; only equality with it matters). -/
def SCAN_RESULT : Nat := 1

/-- System state: script globals plus runtime bookkeeping.

* `watchdogs` — armed one-shot timers `(handle, duration ms)` created
  by `Timer.set` in `send`; the handle equals the id of the send that
  armed it (each `Timer.set` returns a fresh handle).
* `pendingCalls` — ids of HTTP.POST calls whose continuation
  (`httpCallback`) has not yet run; the transport runs each
  continuation at most once.
* `unresolved` — ghost history variable: accepted sends that have been
  resolved neither by their completion callback nor by watchdog
  expiry.  It is written only by the bookkeeping, never read by the
  script's code.
* `nextSendId` — fresh-id counter for accepted sends. -/
structure SysState where
  vars : GwVars
  nextSendId : Nat
  watchdogs : List (Nat × Nat)
  pendingCalls : List Nat
  unresolved : List Nat
deriving DecidableEq, Repr

/-- The initial state: the script's globals as initialised at load,
no timers armed, no calls outstanding. -/
def initState : SysState :=
  { vars := { busy := false, lastSent := [], currentMac := "",
              busyTimer := none, consecutiveErrors := 0, backoffUntil := 0 }
    nextSendId := 0
    watchdogs := []
    pendingCalls := []
    unresolved := [] }

/-- `send(mac, rssi, data)` from the source: reject while `busy` or
while `backoffUntil > now`; otherwise record `currentMac`, set `busy`,
arm the 10000 ms one-shot watchdog and issue the HTTP call.  `rssi`
and `data` only feed the request body and touch no modelled state. -/
def sendStep (now : Int) (mac : String) (s : SysState) : SysState :=
  if s.vars.busy then s
  else if s.vars.backoffUntil > now then s
  else
    { vars := { s.vars with currentMac := mac, busy := true,
                            busyTimer := some s.nextSendId }
      nextSendId := s.nextSendId + 1
      watchdogs := (s.nextSendId, 10000) :: s.watchdogs
      pendingCalls := s.nextSendId :: s.pendingCalls
      unresolved := s.unresolved ++ [s.nextSendId] }

/-- Delivery of the completion callback of HTTP call `sid`.  If the
continuation already ran, the event is impossible (no-op); otherwise
run `httpCallback`: the `Timer.clear(busyTimer)` in its body disarms
the timer whose handle is currently in `busyTimer`, and the send `sid`
is resolved by its own completion. -/
def httpDoneStep (now : Int) (sid : Nat) (r : Option HttpResp) (e : Int)
    (s : SysState) : SysState :=
  if sid ∈ s.pendingCalls then
    { vars := httpCallbackVars now r e s.vars
      nextSendId := s.nextSendId
      watchdogs :=
        match s.vars.busyTimer with
        | some t => s.watchdogs.filter (fun w => w.1 ≠ t)
        | none => s.watchdogs
      pendingCalls := s.pendingCalls.erase sid
      unresolved := s.unresolved.erase sid }
  else s

/-- Expiry of timer handle `tid`.  Only armed timers fire; a fired
one-shot timer is consumed.  The callback attached by `send` is
`resetBusy`, and its firing resolves the send that armed it (the send
whose id equals the handle). -/
def watchdogStep (now : Int) (tid : Nat) (s : SysState) : SysState :=
  if s.watchdogs.any (fun w => w.1 = tid) then
    { vars := resetBusyVars now s.vars
      nextSendId := s.nextSendId
      watchdogs := s.watchdogs.filter (fun w => w.1 ≠ tid)
      pendingCalls := s.pendingCalls
      unresolved := s.unresolved.erase tid }
  else s

/-- `onBle(ev, res)` from the source: guard chain, hex-encode the
payload, manufacturer filter, address normalisation, per-device rate
limit, optimistic `lastSent` record, then `send`. -/
def onBleStep (cfg : GwCfg) (now : Int) (ev : Nat) (res : Option BleRes)
    (s : SysState) : SysState :=
  if ev ≠ SCAN_RESULT then s
  else
    match res with
    | none => s
    | some r =>
      match r.addr with
      | none => s
      | some a =>
        if a = "" then s
        else
          let d := match r.advData with
                   | some p => hex p
                   | none => ""
          if d.length = 0 then s
          else if hasMfg d cfg.MFG = false then s
          else
            let m := normalizeAddr a
            if now - ((lookupLS m s.vars.lastSent).getD 0) < cfg.RATE_LIMIT_SEC
            then s
            else
              sendStep now m
                { s with vars := { s.vars with
                                   lastSent := upsert m now s.vars.lastSent } }

/-- One tick of the repeating cleanup timer armed in `init`. -/
def cleanupTickStep (cfg : GwCfg) (now : Int) (s : SysState) : SysState :=
  { s with vars := { s.vars with
      lastSent := cleanupLastSent cfg.MAX_LASTSENT_ENTRIES now s.vars.lastSent } }

/-- One event of the event loop.  Each event carries the value
`Math.floor(Date.now() / 1000)` observed while its handler runs. -/
inductive Ev where
  | ble (now : Int) (ev : Nat) (res : Option BleRes)
  | watchdog (now : Int) (tid : Nat)
  | httpDone (now : Int) (sid : Nat) (r : Option HttpResp) (e : Int)
  | cleanupTick (now : Int)
deriving DecidableEq, Repr

/-- The timestamp an event's handler observes. -/
def evTime : Ev → Int
  | .ble now _ _ => now
  | .watchdog now _ => now
  | .httpDone now _ _ _ => now
  | .cleanupTick now => now

/-- Dispatch one event. -/
def step (cfg : GwCfg) (e : Ev) (s : SysState) : SysState :=
  match e with
  | .ble now ev res => onBleStep cfg now ev res s
  | .watchdog now tid => watchdogStep now tid s
  | .httpDone now sid r e => httpDoneStep now sid r e s
  | .cleanupTick now => cleanupTickStep cfg now s

/-- Run a sequence of events. -/
def runEvs (cfg : GwCfg) (s : SysState) : List Ev → SysState
  | [] => s
  | e :: rest => runEvs cfg (step cfg e s) rest

/-- An event is timely in state `s` when it is not a stale HTTP
completion: the completion of send `sid` may run only while `sid` is
still unresolved (equivalently, before the watchdog fired for it).
Every other event is always timely. -/
def okEv (s : SysState) : Ev → Bool
  | .httpDone _ sid _ _ =>
    decide (sid ∈ s.unresolved) || !(decide (sid ∈ s.pendingCalls))
  | _ => true

/-- Every event of the trace is timely in the state it is dispatched
in (no stale completions along the run). -/
def okFromb (cfg : GwCfg) : SysState → List Ev → Bool
  | _, [] => true
  | s, e :: rest => okEv s e && okFromb cfg (step cfg e s) rest

/-- The delivery-slot invariant: while `busy`, exactly one accepted
send is unresolved, `busyTimer` holds the handle of its watchdog and
that watchdog is the only armed one (duration 10000 ms); while idle,
no send is unresolved and no watchdog is armed. -/
def Inv (s : SysState) : Prop :=
  (s.vars.busy = true →
    ∃ sid, s.unresolved = [sid] ∧ s.vars.busyTimer = some sid ∧
           s.watchdogs = [(sid, 10000)]) ∧
  (s.vars.busy = false →
    s.unresolved = [] ∧ s.vars.busyTimer = none ∧ s.watchdogs = [])

/-! ### Concrete traces used by individual claims -/

/-- A Victron-style manufacturer payload: its hex encoding is
`"FF9904"`, which matches allow-list id `0x0499`. -/
def vPay : List Nat := [0xFF, 0x99, 0x04]

/-- A well-formed scan-result advertisement event from address `a`. -/
def advEv (now : Int) (a : String) : Ev :=
  Ev.ble now SCAN_RESULT
    (some { addr := some a, advData := some vPay, rssi := -60 })

/-- Distinct two-character device addresses `"A0"`, `"A1"`, ...,
already upper-case and colon-free of even length, so address
normalisation keeps them intact. -/
def macName (i : Nat) : String :=
  String.mk [Char.ofNat (65 + i / 10), Char.ofNat (48 + i % 10)]

/-- Send accepted at t=100 (id 0), watchdog expires at t=110: the
slot is released by the watchdog while the HTTP completion of send 0
is still outstanding. -/
def c2preTrace : List Ev := [advEv 100 "A0", Ev.watchdog 110 0]

/-- The stale completion of send 0: a transport error delivered at
t=112, after the watchdog already resolved send 0. -/
def c2staleEv : Ev := Ev.httpDone 112 0 none 1

/-- Interleaving refuting the single-delivery invariant: send 0
accepted (t=100), its watchdog fires (t=110), send 1 accepted (t=111),
the stale completion of send 0 arrives (t=112) and frees the slot and
cancels send 1's watchdog, send 2 is accepted (t=113) while send 1 is
still unresolved. -/
def c1trace : List Ev :=
  [advEv 100 "A0", Ev.watchdog 110 0, advEv 111 "A1", c2staleEv,
   advEv 113 "A2"]

/-- A timely trace: one accepted send whose completion (success)
arrives while it is in flight. -/
def c1okTrace : List Ev :=
  [advEv 100 "A0", Ev.httpDone 101 0 (some { code := 200 }) 0]

/-- One failed delivery: an accepted send whose completion reports a
transport error in the same second. -/
def failCycle (t : Int) (a : String) (sid : Nat) : List Ev :=
  [advEv t a, Ev.httpDone t sid none 1]

/-- Four consecutive delivery failures, the last at t=103: afterwards
`backoffUntil = 123`, and the value is never cleared when the cooldown
lapses. -/
def c8trace : List Ev :=
  failCycle 100 "A0" 0 ++ failCycle 101 "A1" 1 ++
    failCycle 102 "A2" 2 ++ failCycle 103 "A3" 3

/-- Trace refuting the global rate-limit guarantee at the source's own
configuration (rate limit 5 s, capacity 50): device `"A0"` is
forwarded at t=100; 50 further devices are recorded at t=101, so the
store holds 51 entries; the cleanup pass at t=102 evicts the single
oldest entry, which is `"A0"`; an advertisement from `"A0"` at t=103
(before 100 + 5) is then forwarded again (HTTP call id 2). -/
def c5trace : List Ev :=
  advEv 100 (macName 0) :: Ev.httpDone 101 0 (some { code := 200 }) 0 ::
    ((List.range 50).map (fun i => advEv 101 (macName (i + 1)))) ++
    [Ev.httpDone 102 1 (some { code := 200 }) 0, Ev.cleanupTick 102,
     advEv 103 (macName 0)]

/-! ### Spec-side description of the manufacturer filter (§4.1)

These definitions follow the specification's words — "the payload,
encoded as uppercase hexadecimal, contains the 2-byte little-endian
encoding of any id in `allowList` immediately preceded by the marker
`\x22FF\x22`" — and are compared with the source-derived `hasMfg`/`hex`
in the refinement theorem for C7. -/

/-- An upper-case hexadecimal digit. -/
def specHexDigit (n : Nat) : Char :=
  if n < 10 then Char.ofNat (48 + n) else Char.ofNat (55 + n)

/-- A byte as two upper-case hexadecimal digits. -/
def specByteHex (b : Nat) : String :=
  String.mk [specHexDigit (b / 16), specHexDigit (b % 16)]

/-- The payload encoded as upper-case hexadecimal, no separators. -/
def specPayloadHex (p : List Nat) : String :=
  String.mk ((p.map (fun b => (specByteHex b).data)).flatten)

/-- The marker `"FF"` followed by the two-byte little-endian encoding
of a (two-byte) id: low byte first, two upper-case hex digits each. -/
def specLEPattern (id : Nat) : String :=
  "FF" ++ specByteHex (id % 256) ++ specByteHex (id / 256)

/-! ### Helper lemmas -/

theorem applyBackoff_busy (now : Int) (v : GwVars) :
    (applyBackoff now v).busy = v.busy := by
  unfold applyBackoff; split <;> rfl

theorem applyBackoff_busyTimer (now : Int) (v : GwVars) :
    (applyBackoff now v).busyTimer = v.busyTimer := by
  unfold applyBackoff; split <;> rfl

theorem applyBackoff_consecutiveErrors (now : Int) (v : GwVars) :
    (applyBackoff now v).consecutiveErrors = v.consecutiveErrors := by
  unfold applyBackoff; split <;> rfl

theorem applyBackoff_lastSent (now : Int) (v : GwVars) :
    (applyBackoff now v).lastSent = v.lastSent := by
  unfold applyBackoff; split <;> rfl

theorem applyBackoff_le (now : Int) (v : GwVars) :
    (v.consecutiveErrors ≤ 3 → applyBackoff now v = v) ∧
    (3 < v.consecutiveErrors →
      (applyBackoff now v).backoffUntil =
        now + min 60 ((v.consecutiveErrors : Int) * 5)) := by
  unfold applyBackoff
  constructor
  · intro h; rw [if_pos h]
  · intro h; rw [if_neg (by omega)]

theorem applyBackoff_backoffUntil_cases (now : Int) (v : GwVars) :
    (applyBackoff now v).backoffUntil = v.backoffUntil ∨
      now ≤ (applyBackoff now v).backoffUntil := by
  unfold applyBackoff
  split
  · exact Or.inl rfl
  · right
    have h0 : (0 : Int) ≤ min 60 ((v.consecutiveErrors : Int) * 5) :=
      le_min (by norm_num) (mul_nonneg (Int.natCast_nonneg _) (by norm_num))
    simp only
    omega

theorem watchdogStep_not_armed (now : Int) (tid : Nat) (s : SysState)
    (h : s.watchdogs.any (fun w => w.1 = tid) = false) :
    watchdogStep now tid s = s := by
  simp [watchdogStep, h]

theorem httpCallbackVars_eq (now : Int) (r : Option HttpResp) (e : Int)
    (v : GwVars) :
    httpCallbackVars now r e v =
      if e ≠ 0 then applyBackoff now (failBump v)
      else
        match r with
        | some resp =>
          if resp.code ≠ 200 then applyBackoff now (failBump v)
          else { v with busy := false, busyTimer := none,
                        consecutiveErrors := 0, backoffUntil := 0 }
        | none => applyBackoff now (failBump v) := rfl

theorem resetBusyVars_eq (now : Int) (v : GwVars) :
    resetBusyVars now v = applyBackoff now (failBump v) := rfl

theorem sendStep_backoffUntil (now : Int) (mac : String) (s : SysState) :
    (sendStep now mac s).vars.backoffUntil = s.vars.backoffUntil := by
  unfold sendStep
  split
  · rfl
  · split <;> rfl

theorem onBleStep_backoffUntil (cfg : GwCfg) (now : Int) (ev : Nat)
    (res : Option BleRes) (s : SysState) :
    (onBleStep cfg now ev res s).vars.backoffUntil = s.vars.backoffUntil := by
  unfold onBleStep
  split
  · rfl
  · split
    · rfl
    · split
      · rfl
      · split
        · rfl
        · dsimp only
          split
          · rfl
          · split
            · rfl
            · split
              · rfl
              · exact sendStep_backoffUntil _ _ _

end VictronGw

namespace VictronGw

/-! ### Claim C9 -/

/-- C9: the manufacturer-id substring match is not byte-aligned: the
payload bytes `0x0F 0xF9 0x90 0x4A` contain no `0xFF` byte, yet their
hex encoding `"0FF9904A"` contains `"FF9904"` starting at an odd
nibble offset, so the advertisement qualifies for allow-list
`[0x0499]`. -/
theorem C9_nibble_misaligned_match :
    hasMfg (hex [0x0F, 0xF9, 0x90, 0x4A]) [0x0499] = true ∧
    hex [0x0F, 0xF9, 0x90, 0x4A] = "0FF9904A" ∧
    ([0x0F, 0xF9, 0x90, 0x4A] : List Nat).all (fun b => b ≠ 0xFF) = true := by
  decide

/-! ### Claim C2 -/

set_option maxRecDepth 100000 in
/-- C2 (refuted): a stale transport completion arriving after the
watchdog released the slot is NOT a no-op.  After `c2preTrace` (send 0
accepted at t=100, watchdog fired at t=110) the script has
`consecutiveErrors = 1`, `busy = false`, and the completion of send 0
is still outstanding; delivering that stale completion (transport
error, t=112) runs the full `httpCallback` body and bumps
`consecutiveErrors` to 2 — the claimed frame condition fails.
Moreover along `c1trace`, where a second send (id 1) is accepted
before the stale completion of send 0 arrives, the stale completion
frees the slot (`busy = false`) and cancels send 1's armed watchdog
(`watchdogs = []`) while send 1 is still unresolved. -/
theorem C2_stale_completion_not_noop :
    (runEvs defaultCfg initState c2preTrace).vars.consecutiveErrors = 1 ∧
    (runEvs defaultCfg initState c2preTrace).vars.busy = false ∧
    0 ∈ (runEvs defaultCfg initState c2preTrace).pendingCalls ∧
    (step defaultCfg c2staleEv
        (runEvs defaultCfg initState c2preTrace)).vars.consecutiveErrors = 2 ∧
    (runEvs defaultCfg initState (c1trace.take 4)).vars.busy = false ∧
    (runEvs defaultCfg initState (c1trace.take 4)).watchdogs = [] ∧
    (runEvs defaultCfg initState (c1trace.take 4)).unresolved = [1] := by
  decide

/-! ### Claim C1 -/

set_option maxRecDepth 100000 in
/-- C1 (counterexample): a reachable interleaving in which two
accepted sends are simultaneously in flight (neither resolved by its
completion callback nor by watchdog expiry).  Along `c1trace` the
stale completion of send 0 frees the slot while send 1 is unresolved,
so send 2 is accepted while send 1 is still in flight: the final state
has `unresolved = [1, 2]`, and both HTTP calls are still outstanding. -/
theorem C1_counterexample :
    (runEvs defaultCfg initState c1trace).unresolved = [1, 2] ∧
    1 ∈ (runEvs defaultCfg initState c1trace).pendingCalls ∧
    2 ∈ (runEvs defaultCfg initState c1trace).pendingCalls ∧
    (runEvs defaultCfg initState c1trace).unresolved.length = 2 := by
  decide

/-! ### Claim C8 -/

set_option maxRecDepth 100000 in
/-- C8 (counterexample): after the four failed deliveries of
`c8trace` (all handler timestamps at most 130) the script holds
`backoffUntil = 123`; at the instant 130 the variable is non-zero and
lies strictly in the past, refuting the invariant that `backoffUntil`
is always `0` or at least the current time. -/
theorem C8_counterexample :
    (runEvs defaultCfg initState c8trace).vars.backoffUntil = 123 ∧
    c8trace.all (fun e => evTime e ≤ 130) = true ∧
    ¬((123 : Int) = 0 ∨ (130 : Int) ≤ 123) := by
  decide

/-- C8 (amended): no handler ever writes a stale value — each event
either leaves `backoffUntil` unchanged, resets it to `0`, or sets it
to a value at least the timestamp its handler observes.  (The refuted
stronger form fails only because an expired non-zero cooldown is left
in place until the next success or escalation overwrites it.) -/
theorem C8_backoff_write_invariant (cfg : GwCfg) (s : SysState) (e : Ev) :
    (step cfg e s).vars.backoffUntil = s.vars.backoffUntil ∨
    (step cfg e s).vars.backoffUntil = 0 ∨
    evTime e ≤ (step cfg e s).vars.backoffUntil := by
  cases e with
  | ble now ev res =>
    exact Or.inl (onBleStep_backoffUntil cfg now ev res s)
  | watchdog now tid =>
    simp only [step, evTime]
    unfold watchdogStep
    split
    · rcases applyBackoff_backoffUntil_cases now (failBump s.vars) with h | h
      · exact Or.inl h
      · exact Or.inr (Or.inr h)
    · exact Or.inl rfl
  | httpDone now sid r e' =>
    simp only [step, evTime]
    unfold httpDoneStep
    split
    · show (httpCallbackVars now r e' s.vars).backoffUntil = _ ∨ _ ∨ _
      rw [httpCallbackVars_eq]
      split
      · rcases applyBackoff_backoffUntil_cases now (failBump s.vars) with h | h
        · exact Or.inl h
        · exact Or.inr (Or.inr h)
      · split
        · split
          · rcases applyBackoff_backoffUntil_cases now (failBump s.vars)
              with h | h
            · exact Or.inl h
            · exact Or.inr (Or.inr h)
          · exact Or.inr (Or.inl rfl)
        · rcases applyBackoff_backoffUntil_cases now (failBump s.vars)
            with h | h
          · exact Or.inl h
          · exact Or.inr (Or.inr h)
    · exact Or.inl rfl
  | cleanupTick now =>
    exact Or.inl rfl

/-! ### Claim C10 -/

/-- C10: an incoming event whose type is not a scan result, whose
result object is absent, whose source address is absent, or whose
payload is absent or empty is ignored by `onBle` with no state change
at all: the entire system state (including `lastSent`, `busy`,
`busyTimer`, `consecutiveErrors`, `backoffUntil`, and the set of
outstanding HTTP calls) is returned unchanged and no send is
attempted. -/
theorem C10_malformed_event_noop (cfg : GwCfg) (s : SysState) (now : Int)
    (ev : Nat) (res : Option BleRes)
    (h : ev ≠ SCAN_RESULT ∨ res = none ∨
      ∃ r, res = some r ∧
        (r.addr = none ∨ r.advData = none ∨ r.advData = some [])) :
    step cfg (Ev.ble now ev res) s = s := by
  have hlen : (hex []).length = 0 := by decide
  show onBleStep cfg now ev res s = s
  by_cases hev : ev ≠ SCAN_RESULT
  · simp [onBleStep, hev]
  · rcases h with h | rfl | ⟨r, rfl, hr⟩
    · exact absurd h (by simpa using hev)
    · simp [onBleStep, hev]
    · rcases r with ⟨addr, advData, rssi⟩
      rcases hr with ha | hd | hd
      · simp only at ha
        subst ha
        simp [onBleStep, hev]
      · simp only at hd
        subst hd
        cases addr with
        | none => simp [onBleStep, hev]
        | some a =>
          by_cases hae : a = "" <;> simp [onBleStep, hev, hae]
      · simp only at hd
        subst hd
        cases addr with
        | none => simp [onBleStep, hev]
        | some a =>
          by_cases hae : a = "" <;> simp [onBleStep, hev, hae, hlen]

/-- C10 witness: a non-scan event is dropped without touching the
initial state. -/
theorem C10_malformed_event_noop_witness :
    step defaultCfg (Ev.ble 0 0 none) initState = initState :=
  C10_malformed_event_noop defaultCfg initState 0 0 none (Or.inl (by decide))

/-! ### Claim C3 -/

/-- C3: watchdog recovery.  An accepted `send` arms exactly one
one-shot watchdog, with the fixed 10000 ms timeout, whose handle is
recorded in `busyTimer`; when an armed watchdog fires it returns the
slot to idle (`busy = false`, handle cleared), consumes the timer,
increments `consecutiveErrors` by exactly one and applies the backoff
policy to that single failure — and firing the same handle again
changes nothing, so for a send with no completion callback the slot is
released exactly once and exactly one failure is reported. -/
theorem C3_watchdog_recovery :
    (∀ (s : SysState) (now : Int) (mac : String),
      s.vars.busy = false → ¬ s.vars.backoffUntil > now →
      (sendStep now mac s).vars.busy = true ∧
      (sendStep now mac s).vars.busyTimer = some s.nextSendId ∧
      (sendStep now mac s).watchdogs = (s.nextSendId, 10000) :: s.watchdogs) ∧
    (∀ (s : SysState) (now : Int) (tid d : Nat), (tid, d) ∈ s.watchdogs →
      (watchdogStep now tid s).vars.busy = false ∧
      (watchdogStep now tid s).vars.busyTimer = none ∧
      (watchdogStep now tid s).vars.consecutiveErrors =
        s.vars.consecutiveErrors + 1 ∧
      (watchdogStep now tid s).vars.backoffUntil =
        (applyBackoff now (failBump s.vars)).backoffUntil ∧
      (∀ d', (tid, d') ∉ (watchdogStep now tid s).watchdogs) ∧
      ∀ now', watchdogStep now' tid (watchdogStep now tid s) =
        watchdogStep now tid s) := by
  constructor
  · intro s now mac h1 h2
    simp [sendStep, h1, h2]
  · intro s now tid d hmem
    have harm : s.watchdogs.any (fun w => w.1 = tid) = true :=
      List.any_eq_true.2 ⟨(tid, d), hmem, by simp⟩
    have hstep : watchdogStep now tid s =
        { vars := resetBusyVars now s.vars
          nextSendId := s.nextSendId
          watchdogs := s.watchdogs.filter (fun w => w.1 ≠ tid)
          pendingCalls := s.pendingCalls
          unresolved := s.unresolved.erase tid } := by
      simp [watchdogStep, harm]
    refine ⟨?_, ?_, ?_, ?_, ?_, ?_⟩
    · rw [hstep]
      show (resetBusyVars now s.vars).busy = false
      unfold resetBusyVars
      rw [applyBackoff_busy]
    · rw [hstep]
      show (resetBusyVars now s.vars).busyTimer = none
      unfold resetBusyVars
      rw [applyBackoff_busyTimer]
    · rw [hstep]
      show (resetBusyVars now s.vars).consecutiveErrors = _
      unfold resetBusyVars
      rw [applyBackoff_consecutiveErrors]
    · rw [hstep]
      rfl
    · intro d' hd'
      rw [hstep] at hd'
      have := List.mem_filter.1 hd'
      simp at this
    · intro now'
      apply watchdogStep_not_armed
      rw [hstep]
      rw [List.any_eq_false]
      intro w hw
      have := List.mem_filter.1 hw
      simpa using this.2


/-! ### Claim C4 -/

/-- Any failure outcome of the completion callback (transport error,
missing response object, or non-200 status) takes the common failure
path: release the slot, increment the counter, apply the backoff
policy. -/
theorem httpCallbackVars_failure (now : Int) (r : Option HttpResp) (e : Int)
    (v : GwVars)
    (h : e ≠ 0 ∨ r = none ∨ ∃ resp, r = some resp ∧ resp.code ≠ 200) :
    httpCallbackVars now r e v = applyBackoff now (failBump v) := by
  rw [httpCallbackVars_eq]
  by_cases he : e = 0
  · rw [if_neg (by simpa using he)]
    rcases h with h | rfl | ⟨resp, rfl, hresp⟩
    · exact absurd he h
    · rfl
    · show (if resp.code ≠ 200 then applyBackoff now (failBump v) else _) = _
      rw [if_pos hresp]
  · rw [if_pos he]

/-- A failure while the incoming error run is still short (at most two
previous consecutive errors) sets no cooldown at all. -/
theorem httpCallbackVars_failure_short (now : Int) (v : GwVars)
    (h : v.consecutiveErrors ≤ 2) :
    httpCallbackVars now none 1 v = failBump v := by
  rw [httpCallbackVars_failure now none 1 v (Or.inl (by norm_num))]
  exact (applyBackoff_le now (failBump v)).1 (by simp [failBump]; omega)

/-- C4: the backoff policy.  Every failure signal (transport error,
missing response, non-success status) increments `consecutiveErrors`
by one; if the new count is at most 3 the cooldown deadline is left
unchanged, and if it exceeds 3 it becomes
`now + min 60 (count * 5)` seconds; any success resets the counter and
the deadline to 0.  In particular four consecutive failures from a
clean state yield `backoffUntil = t4 + 20` (a 20-second cooldown), and
a subsequent success clears it immediately. -/
theorem C4_backoff_policy :
    (∀ (now : Int) (r : Option HttpResp) (e : Int) (v : GwVars),
      (e ≠ 0 ∨ r = none ∨ ∃ resp, r = some resp ∧ resp.code ≠ 200) →
      (httpCallbackVars now r e v).consecutiveErrors =
          v.consecutiveErrors + 1 ∧
      (v.consecutiveErrors + 1 ≤ 3 →
        (httpCallbackVars now r e v).backoffUntil = v.backoffUntil) ∧
      (3 < v.consecutiveErrors + 1 →
        (httpCallbackVars now r e v).backoffUntil =
          now + min 60 (((v.consecutiveErrors + 1 : Nat) : Int) * 5))) ∧
    (∀ (now : Int) (resp : HttpResp) (v : GwVars), resp.code = 200 →
      (httpCallbackVars now (some resp) 0 v).consecutiveErrors = 0 ∧
      (httpCallbackVars now (some resp) 0 v).backoffUntil = 0) ∧
    (∀ (t1 t2 t3 t4 t5 : Int) (v : GwVars), v.consecutiveErrors = 0 →
      (httpCallbackVars t4 none 1 (httpCallbackVars t3 none 1
        (httpCallbackVars t2 none 1
          (httpCallbackVars t1 none 1 v)))).backoffUntil = t4 + 20 ∧
      (httpCallbackVars t5 (some { code := 200 }) 0
        (httpCallbackVars t4 none 1 (httpCallbackVars t3 none 1
          (httpCallbackVars t2 none 1
            (httpCallbackVars t1 none 1 v))))).backoffUntil = 0) := by
  refine ⟨?_, ?_, ?_⟩
  · intro now r e v h
    rw [httpCallbackVars_failure now r e v h]
    refine ⟨?_, ?_, ?_⟩
    · rw [applyBackoff_consecutiveErrors]
      rfl
    · intro hle
      rw [(applyBackoff_le now (failBump v)).1 (by simpa [failBump] using hle)]
      rfl
    · intro hgt
      rw [(applyBackoff_le now (failBump v)).2 (by simpa [failBump] using hgt)]
      rfl
  · intro now resp v hcode
    rw [httpCallbackVars_eq]
    simp [hcode]
  · intro t1 t2 t3 t4 t5 v hv
    have h1 : httpCallbackVars t1 none 1 v = failBump v :=
      httpCallbackVars_failure_short t1 v (by omega)
    have h2 : httpCallbackVars t2 none 1 (failBump v) =
        failBump (failBump v) :=
      httpCallbackVars_failure_short t2 _ (by simp [failBump]; omega)
    have h3 : httpCallbackVars t3 none 1 (failBump (failBump v)) =
        failBump (failBump (failBump v)) :=
      httpCallbackVars_failure_short t3 _ (by simp [failBump]; omega)
    have h4 : httpCallbackVars t4 none 1 (failBump (failBump (failBump v))) =
        applyBackoff t4 (failBump (failBump (failBump (failBump v)))) :=
      httpCallbackVars_failure t4 none 1 _ (Or.inl (by norm_num))
    have hc : (failBump (failBump (failBump (failBump v)))).consecutiveErrors
        = 4 := by simp [failBump]; omega
    have h5 : (applyBackoff t4
        (failBump (failBump (failBump (failBump v))))).backoffUntil =
        t4 + 20 := by
      rw [(applyBackoff_le t4 _).2 (by omega)]
      rw [hc]
      norm_num
    constructor
    · rw [h1, h2, h3, h4, h5]
    · rw [h1, h2, h3, h4]
      rw [httpCallbackVars_eq]
      simp

/-- C4 witness: four failed deliveries at t=100..103 from the initial
state leave a cooldown deadline of 123, and a success at t=104 clears
it. -/
theorem C4_backoff_policy_witness :
    (httpCallbackVars 103 none 1 (httpCallbackVars 102 none 1
      (httpCallbackVars 101 none 1
        (httpCallbackVars 100 none 1 initState.vars)))).backoffUntil
      = 103 + 20 ∧
    (httpCallbackVars 104 (some { code := 200 }) 0
      (httpCallbackVars 103 none 1 (httpCallbackVars 102 none 1
        (httpCallbackVars 101 none 1
          (httpCallbackVars 100 none 1 initState.vars))))).backoffUntil
      = 0 :=
  C4_backoff_policy.2.2 100 101 102 103 104 initState.vars (by decide)

/-! ### Claim C1, amended: the invariant under timely completions -/

theorem httpCallbackVars_busy (now : Int) (r : Option HttpResp) (e : Int)
    (v : GwVars) : (httpCallbackVars now r e v).busy = false := by
  rw [httpCallbackVars_eq]
  split
  · rw [applyBackoff_busy]; rfl
  · split
    · split
      · rw [applyBackoff_busy]; rfl
      · rfl
    · rw [applyBackoff_busy]; rfl

theorem httpCallbackVars_busyTimer (now : Int) (r : Option HttpResp) (e : Int)
    (v : GwVars) : (httpCallbackVars now r e v).busyTimer = none := by
  rw [httpCallbackVars_eq]
  split
  · rw [applyBackoff_busyTimer]; rfl
  · split
    · split
      · rw [applyBackoff_busyTimer]; rfl
      · rfl
    · rw [applyBackoff_busyTimer]; rfl

theorem sendStep_lastSent (now : Int) (mac : String) (s : SysState) :
    (sendStep now mac s).vars.lastSent = s.vars.lastSent := by
  unfold sendStep
  split
  · rfl
  · split <;> rfl

theorem Inv_init : Inv initState := by
  constructor
  · intro hb
    exact absurd hb (by decide)
  · intro _
    exact ⟨rfl, rfl, rfl⟩

theorem Inv_sendStep (now : Int) (mac : String) (s : SysState) (h : Inv s) :
    Inv (sendStep now mac s) := by
  unfold sendStep
  split
  · exact h
  · split
    · exact h
    · rename_i hbusy _
      have hb : s.vars.busy = false := by
        revert hbusy; cases s.vars.busy <;> simp
      have hidle := h.2 hb
      constructor
      · intro _
        refine ⟨s.nextSendId, ?_, rfl, ?_⟩
        · show s.unresolved ++ [s.nextSendId] = [s.nextSendId]
          rw [hidle.1]; rfl
        · show (s.nextSendId, 10000) :: s.watchdogs = [(s.nextSendId, 10000)]
          rw [hidle.2.2]
      · intro hfalse
        simp at hfalse

theorem Inv_onBleStep (cfg : GwCfg) (now : Int) (ev : Nat)
    (res : Option BleRes) (s : SysState) (h : Inv s) :
    Inv (onBleStep cfg now ev res s) := by
  unfold onBleStep
  split
  · exact h
  · split
    · exact h
    · split
      · exact h
      · split
        · exact h
        · dsimp only
          split
          · exact h
          · split
            · exact h
            · split
              · exact h
              · exact Inv_sendStep _ _ _ h

theorem Inv_watchdogStep (now : Int) (tid : Nat) (s : SysState) (h : Inv s) :
    Inv (watchdogStep now tid s) := by
  unfold watchdogStep
  split
  · rename_i harm
    have hbusy : s.vars.busy = true := by
      by_contra hb
      have hb2 : s.vars.busy = false := by
        revert hb; cases s.vars.busy <;> simp
      have hidle := h.2 hb2
      rw [hidle.2.2] at harm
      simp at harm
    obtain ⟨sid, hu, ht, hw⟩ := h.1 hbusy
    have htid : tid = sid := by
      rw [hw] at harm
      exact (show sid = tid by simpa using harm).symm
    constructor
    · intro hb2
      exfalso
      have hfb : (resetBusyVars now s.vars).busy = false := by
        rw [resetBusyVars_eq, applyBackoff_busy]; rfl
      have hb3 : (resetBusyVars now s.vars).busy = true := hb2
      rw [hfb] at hb3
      exact Bool.noConfusion hb3
    · intro _
      refine ⟨?_, ?_, ?_⟩
      · show s.unresolved.erase tid = []
        rw [hu, htid]
        simp
      · show (resetBusyVars now s.vars).busyTimer = none
        rw [resetBusyVars_eq, applyBackoff_busyTimer]; rfl
      · show s.watchdogs.filter (fun w => w.1 ≠ tid) = []
        rw [hw, htid]
        simp
  · exact h

theorem Inv_httpDoneStep (now : Int) (sid : Nat) (r : Option HttpResp)
    (e : Int) (s : SysState) (h : Inv s)
    (hok : okEv s (Ev.httpDone now sid r e) = true) :
    Inv (httpDoneStep now sid r e s) := by
  unfold httpDoneStep
  split
  · rename_i hpend
    have hun : sid ∈ s.unresolved := by
      simp [okEv] at hok
      rcases hok with hok | hok
      · exact hok
      · exact absurd hpend hok
    have hbusy : s.vars.busy = true := by
      by_contra hb
      have hb2 : s.vars.busy = false := by
        revert hb; cases s.vars.busy <;> simp
      have hidle := h.2 hb2
      rw [hidle.1] at hun
      simp at hun
    obtain ⟨sid0, hu, ht, hw⟩ := h.1 hbusy
    have hsid : sid = sid0 := by
      rw [hu] at hun
      simpa using hun
    constructor
    · intro hb2
      exfalso
      have hfb : (httpCallbackVars now r e s.vars).busy = false :=
        httpCallbackVars_busy now r e s.vars
      have hb3 : (httpCallbackVars now r e s.vars).busy = true := hb2
      rw [hfb] at hb3
      exact Bool.noConfusion hb3
    · intro _
      refine ⟨?_, ?_, ?_⟩
      · show s.unresolved.erase sid = []
        rw [hu, hsid]
        simp
      · exact httpCallbackVars_busyTimer now r e s.vars
      · show (match s.vars.busyTimer with
          | some t => s.watchdogs.filter (fun w => w.1 ≠ t)
          | none => s.watchdogs) = []
        rw [ht, hw]
        simp
  · exact h

theorem Inv_step (cfg : GwCfg) (s : SysState) (e : Ev) (h : Inv s)
    (hok : okEv s e = true) : Inv (step cfg e s) := by
  cases e with
  | ble now ev res => exact Inv_onBleStep cfg now ev res s h
  | watchdog now tid => exact Inv_watchdogStep now tid s h
  | httpDone now sid r e' => exact Inv_httpDoneStep now sid r e' s h hok
  | cleanupTick now => exact h

theorem Inv_runEvs (cfg : GwCfg) :
    ∀ (evs : List Ev) (s : SysState), Inv s → okFromb cfg s evs = true →
      Inv (runEvs cfg s evs) := by
  intro evs
  induction evs with
  | nil => intro s h _; exact h
  | cons e rest ih =>
    intro s h hok
    rw [okFromb, Bool.and_eq_true] at hok
    exact ih (step cfg e s) (Inv_step cfg s e h hok.1) hok.2

/-- C1 (amended): in every run in which each transport completion is
timely — the completion callback of a send runs only while that send
is still unresolved, i.e. before its watchdog fired — at most one
accepted send is unresolved at any point, with `busy` as the gate
(`busy` false means no send in flight, `busy` true means exactly one).
The un-amended claim over all interleavings is refuted by
`C1_counterexample`: a stale completion can release the slot while a
newer send is still in flight. -/
theorem C1_single_delivery (cfg : GwCfg) (evs : List Ev)
    (h : okFromb cfg initState evs = true) :
    (runEvs cfg initState evs).unresolved.length ≤ 1 := by
  have hinv := Inv_runEvs cfg evs initState Inv_init h
  cases hb : (runEvs cfg initState evs).vars.busy with
  | false =>
    rw [(hinv.2 hb).1]
    simp
  | true =>
    obtain ⟨sid, hu, _, _⟩ := hinv.1 hb
    rw [hu]
    simp

set_option maxRecDepth 100000 in
/-- C1 witness: a timely run (one send, its completion arrives while
in flight) keeps at most one delivery in flight. -/
theorem C1_single_delivery_witness :
    (runEvs defaultCfg initState c1okTrace).unresolved.length ≤ 1 :=
  C1_single_delivery defaultCfg c1okTrace (by decide)

/-! ### Claim C3 -/

/-- C3 witness: from the initial state, an accepted send at t=100
arms watchdog 0; firing it at t=110 increments the error counter to
exactly 1. -/
theorem C3_watchdog_recovery_witness :
    (sendStep 100 "A0" initState).vars.busy = true ∧
    (watchdogStep 110 0 (sendStep 100 "A0" initState)).vars.consecutiveErrors
      = 1 := by
  refine ⟨(C3_watchdog_recovery.1 initState 100 "A0" (by decide) (by decide)).1,
    ?_⟩
  have h2 := (C3_watchdog_recovery.2 (sendStep 100 "A0" initState) 110 0 10000
    (by decide)).2.2.1
  exact h2.trans (by decide)

end VictronGw

namespace VictronGw

/-! ### Claim C5 -/

set_option maxRecDepth 400000 in
/-- C5 (counterexample): at the source's own configuration (rate limit
5 s, capacity 50), along `c5trace` device `"A0"` is forwarded
(recorded, HTTP call 0 issued) at T = 100, its entry is evicted by the
cleanup pass at t = 102 as the oldest of 51, and an advertisement from
`"A0"` at t = 103 — strictly before T + 5 — is forwarded again
(recorded at 103 and HTTP call 2 issued), refuting the global
rate-limit guarantee. -/
theorem C5_counterexample :
    lookupLS "A0" (runEvs defaultCfg initState (c5trace.take 1)).vars.lastSent
      = some 100 ∧
    lookupLS "A0" (runEvs defaultCfg initState c5trace).vars.lastSent
      = some 103 ∧
    (runEvs defaultCfg initState c5trace).nextSendId = 3 ∧
    (103 : Int) < 100 + defaultCfg.RATE_LIMIT_SEC := by
  decide

/-- C5 (amended): per-device rate limiting, as long as the device's
recorded timestamp survives (cleanup may evict it, after which the
device is again treated as having `lastSentAt = 0`).  For a
well-formed, qualifying advertisement: if the handler's `now` is
strictly within `RATE_LIMIT_SEC` of the device's stored timestamp
(`0` when the address is unknown), the event is dropped with no state
change at all; otherwise the device is recorded with timestamp `now`. -/
theorem C5_rate_limit :
    (∀ (cfg : GwCfg) (s : SysState) (now : Int) (r : BleRes) (a : String)
        (p : List Nat),
      r.addr = some a → a ≠ "" → r.advData = some p → (hex p).length ≠ 0 →
      hasMfg (hex p) cfg.MFG = true →
      now - ((lookupLS (normalizeAddr a) s.vars.lastSent).getD 0)
          < cfg.RATE_LIMIT_SEC →
      step cfg (Ev.ble now SCAN_RESULT (some r)) s = s) ∧
    (∀ (cfg : GwCfg) (s : SysState) (now : Int) (r : BleRes) (a : String)
        (p : List Nat),
      r.addr = some a → a ≠ "" → r.advData = some p → (hex p).length ≠ 0 →
      hasMfg (hex p) cfg.MFG = true →
      ¬(now - ((lookupLS (normalizeAddr a) s.vars.lastSent).getD 0)
          < cfg.RATE_LIMIT_SEC) →
      (step cfg (Ev.ble now SCAN_RESULT (some r)) s).vars.lastSent =
        upsert (normalizeAddr a) now s.vars.lastSent) := by
  constructor
  · intro cfg s now r a p haddr hane hadv hlen hmfg hrate
    show onBleStep cfg now SCAN_RESULT (some r) s = s
    unfold onBleStep
    simp [haddr, hadv, hane, hlen, hmfg, hrate]
  · intro cfg s now r a p haddr hane hadv hlen hmfg hrate
    show (onBleStep cfg now SCAN_RESULT (some r) s).vars.lastSent = _
    unfold onBleStep
    simp [haddr, hadv, hane, hlen, hmfg, hrate, sendStep_lastSent]

set_option maxRecDepth 100000 in
/-- C5 witness: with `"A0"` recorded at 100, a qualifying
advertisement from `"A0"` at t = 103 is dropped without any state
change. -/
theorem C5_rate_limit_witness :
    step defaultCfg
      (Ev.ble 103 SCAN_RESULT
        (some { addr := some "A0", advData := some vPay, rssi := -60 }))
      { initState with
        vars := { initState.vars with lastSent := [("A0", 100)] } } =
    { initState with
      vars := { initState.vars with lastSent := [("A0", 100)] } } :=
  C5_rate_limit.1 defaultCfg _ 103 _ "A0" vPay rfl (by decide) rfl
    (by decide) (by decide) (by decide)

end VictronGw

namespace VictronGw

/-! ### Claim C6 -/

theorem length_filter_not_add (l : List (String × Int))
    (f : (String × Int) → Bool) :
    (l.filter (fun kv => !(f kv))).length + (l.filter f).length = l.length := by
  induction l with
  | nil => rfl
  | cons kv t ih =>
    by_cases h : f kv
    · simp only [List.filter_cons, h, Bool.not_true, if_false, if_true,
        Bool.false_eq_true, List.length_cons]
      omega
    · simp only [List.filter_cons, h, Bool.not_false, if_true, if_false,
        Bool.false_eq_true, List.length_cons]
      omega

theorem length_filter_contains (l : List (String × Int)) (d : List String)
    (hl : (l.map Prod.fst).Nodup) (hd : d.Nodup)
    (hsub : ∀ x ∈ d, x ∈ l.map Prod.fst) :
    (l.filter (fun kv => d.contains kv.1)).length = d.length := by
  have hsubl : List.Sublist
      ((l.filter (fun kv => d.contains kv.1)).map Prod.fst)
      (l.map Prod.fst) := (List.filter_sublist l).map Prod.fst
  have hnd1 : ((l.filter (fun kv => d.contains kv.1)).map Prod.fst).Nodup :=
    hsubl.nodup hl
  have hperm : List.Perm
      ((l.filter (fun kv => d.contains kv.1)).map Prod.fst) d := by
    rw [List.perm_ext_iff_of_nodup hnd1 hd]
    intro x
    constructor
    · intro hx
      obtain ⟨kv, hkv, rfl⟩ := List.mem_map.1 hx
      have hmem := List.mem_filter.1 hkv
      simpa using hmem.2
    · intro hx
      obtain ⟨kv, hkv, hfst⟩ := List.mem_map.1 (hsub x hx)
      refine List.mem_map.2 ⟨kv, List.mem_filter.2 ⟨hkv, ?_⟩, hfst⟩
      rw [hfst]
      simpa using hx
  have hlen := hperm.length_eq
  rwa [List.length_map] at hlen

theorem sorted_rel_take_drop {α : Type} {rel : α → α → Prop} {l : List α}
    (hs : l.Sorted rel) (n : Nat) :
    ∀ x ∈ l.take n, ∀ y ∈ l.drop n, rel x y := by
  have h : (l.take n ++ l.drop n).Pairwise rel := by
    rw [List.take_append_drop]
    exact hs
  exact (List.pairwise_append.1 h).2.2

/-- C6: the cleanup pass.  With at most `maxE` entries it changes
nothing.  Otherwise (for a store with duplicate-free keys, as a
JavaScript object guarantees) it keeps a sub-collection of exactly
`maxE` entries — so exactly `count - maxE` entries are removed — and
every retained entry has age `now - lastSentAt` at most the age of
every removed entry. -/
theorem C6_cleanup (maxE : Nat) (now : Int) (store : List (String × Int)) :
    (store.length ≤ maxE → cleanupLastSent maxE now store = store) ∧
    ((store.map Prod.fst).Nodup → maxE < store.length →
      (cleanupLastSent maxE now store).length = maxE ∧
      List.Sublist (cleanupLastSent maxE now store) store ∧
      ∀ kv ∈ cleanupLastSent maxE now store, ∀ kv2 ∈ store,
        kv2 ∉ cleanupLastSent maxE now store → now - kv.2 ≤ now - kv2.2) := by
  constructor
  · intro hle
    unfold cleanupLastSent
    rw [if_pos hle]
  · intro hnd hlt
    have hnotle : ¬ store.length ≤ maxE := by omega
    have hclean : cleanupLastSent maxE now store =
        store.filter (fun kv =>
          !(((((store.map (fun kv => (kv.1, now - kv.2))).insertionSort
              byAgeDesc).take (store.length - maxE)).map
                Prod.fst).contains kv.1)) := by
      unfold cleanupLastSent
      rw [if_neg hnotle]
    set aged := store.map (fun kv => (kv.1, now - kv.2)) with haged
    set sorted := aged.insertionSort byAgeDesc with hsorted
    set k := store.length - maxE with hk
    set doomed := (sorted.take k).map Prod.fst with hdoomed
    have hsortperm : List.Perm sorted aged :=
      List.perm_insertionSort byAgeDesc aged
    have hagedlen : aged.length = store.length := by
      rw [haged, List.length_map]
    have hsortlen : sorted.length = store.length := by
      rw [hsortperm.length_eq, hagedlen]
    have hkeys : aged.map Prod.fst = store.map Prod.fst := by
      rw [haged, List.map_map]
      rfl
    have hsortkeysnd : (sorted.map Prod.fst).Nodup := by
      have h := (hsortperm.map Prod.fst).nodup_iff
      rw [hkeys] at h
      exact h.2 hnd
    have hdnodup : doomed.Nodup := by
      rw [hdoomed, List.map_take]
      exact (List.take_sublist k (sorted.map Prod.fst)).nodup hsortkeysnd
    have hdsub : ∀ x ∈ doomed, x ∈ store.map Prod.fst := by
      intro x hx
      rw [hdoomed, List.map_take] at hx
      have hx2 : x ∈ sorted.map Prod.fst := List.mem_of_mem_take hx
      rw [← hkeys]
      exact ((hsortperm.map Prod.fst).mem_iff).1 hx2
    have hdlen : doomed.length = k := by
      rw [hdoomed, List.length_map, List.length_take, hsortlen]
      omega
    have hcount : (store.filter (fun kv => doomed.contains kv.1)).length = k := by
      rw [length_filter_contains store doomed hnd hdnodup hdsub, hdlen]
    have hsum := length_filter_not_add store (fun kv => doomed.contains kv.1)
    have hlenres :
        (store.filter (fun kv => !(doomed.contains kv.1))).length = maxE := by
      rw [hcount] at hsum
      omega
    refine ⟨?_, ?_, ?_⟩
    · rw [hclean]
      exact hlenres
    · rw [hclean]
      exact List.filter_sublist store
    · intro kv hkv kv2 hkv2 hnkv2
      rw [hclean] at hkv hnkv2
      have hkv' := List.mem_filter.1 hkv
      have hkvdoom : kv.1 ∉ doomed := by
        simpa using hkv'.2
      have hkv2doom : kv2.1 ∈ doomed := by
        by_contra hc
        exact hnkv2 (List.mem_filter.2 ⟨hkv2, by simpa using hc⟩)
      obtain ⟨y, hy, hyfst⟩ := List.mem_map.1 (by
        rw [hdoomed] at hkv2doom
        exact hkv2doom)
      have hysorted : y ∈ sorted := List.mem_of_mem_take hy
      have hyaged : y ∈ aged := hsortperm.mem_iff.1 hysorted
      obtain ⟨kv2', hkv2', hkv2'eq⟩ := List.mem_map.1 (by
        rw [haged] at hyaged
        exact hyaged)
      have hfst2 : kv2'.1 = kv2.1 := by
        rw [← hkv2'eq] at hyfst
        simpa using hyfst
      have hkv2'eq2 : kv2' = kv2 :=
        List.inj_on_of_nodup_map hnd hkv2' hkv2 hfst2
      have hkvaged : (kv.1, now - kv.2) ∈ aged := by
        rw [haged]
        exact List.mem_map.2 ⟨kv, hkv'.1, rfl⟩
      have hkvsorted : (kv.1, now - kv.2) ∈ sorted := hsortperm.mem_iff.2 hkvaged
      have hkvdrop : (kv.1, now - kv.2) ∈ sorted.drop k := by
        have hsplit := hkvsorted
        rw [← List.take_append_drop k sorted] at hsplit
        rcases List.mem_append.1 hsplit with h | h
        · exfalso
          exact hkvdoom (by
            rw [hdoomed]
            exact List.mem_map.2 ⟨_, h, rfl⟩)
        · exact h
      have hsortedrel : sorted.Sorted byAgeDesc :=
        List.sorted_insertionSort byAgeDesc aged
      have hrel := sorted_rel_take_drop hsortedrel k y hy
        (kv.1, now - kv.2) hkvdrop
      rw [← hkv2'eq, hkv2'eq2] at hrel
      exact hrel

/-- C6 witness: with capacity 1, now = 10 and two entries, the
younger entry survives and exactly one remains. -/
theorem C6_cleanup_witness :
    (cleanupLastSent 1 10 [("A", 5), ("B", 3)]).length = 1 :=
  ((C6_cleanup 1 10 [("A", 5), ("B", 3)]).2 (by decide) (by decide)).1

end VictronGw

namespace VictronGw

/-! ### Claim C7 -/

theorem strStartsWith_iff (pat : List Char) :
    ∀ hay : List Char, strStartsWith hay pat = true ↔ ∃ t, hay = pat ++ t := by
  induction pat with
  | nil =>
    intro hay
    constructor
    · intro _
      exact ⟨hay, rfl⟩
    · intro _
      cases hay <;> rfl
  | cons b bs ih =>
    intro hay
    cases hay with
    | nil =>
      constructor
      · intro h
        rw [show strStartsWith [] (b :: bs) = false from rfl] at h
        exact Bool.noConfusion h
      · rintro ⟨t, ht⟩
        exact absurd ht (by simp)
    | cons a as =>
      show (a == b && strStartsWith as bs) = true ↔ _
      rw [Bool.and_eq_true, beq_iff_eq, ih as]
      constructor
      · rintro ⟨rfl, t, rfl⟩
        exact ⟨t, rfl⟩
      · rintro ⟨t, ht⟩
        injection ht with h1 h2
        exact ⟨h1, t, h2⟩

theorem containsSub_iff (pat : List Char) :
    ∀ hay : List Char, containsSub hay pat = true ↔
      ∃ l r : List Char, hay = l ++ pat ++ r := by
  intro hay
  induction hay with
  | nil =>
    show (strStartsWith [] pat || false) = true ↔ _
    rw [Bool.or_false, strStartsWith_iff]
    constructor
    · rintro ⟨t, ht⟩
      refine ⟨[], t, ?_⟩
      simpa using ht
    · rintro ⟨l, r, hl⟩
      have h1 := List.append_eq_nil.1 hl.symm
      have h2 := List.append_eq_nil.1 h1.1
      exact ⟨[], by rw [h2.2]; rfl⟩
  | cons a t ih =>
    show (strStartsWith (a :: t) pat || containsSub t pat) = true ↔ _
    rw [Bool.or_eq_true, strStartsWith_iff, ih]
    constructor
    · rintro (⟨r, hr⟩ | ⟨l, r, hlr⟩)
      · exact ⟨[], r, by simpa using hr⟩
      · exact ⟨a :: l, r, by rw [hlr]; rfl⟩
    · rintro ⟨l, r, hlr⟩
      cases l with
      | nil =>
        left
        exact ⟨r, by simpa using hlr⟩
      | cons x l2 =>
        right
        injection hlr with h1 h2
        exact ⟨l2, r, h2⟩

theorem jsContains_iff (hay pat : String) :
    jsContains hay pat = true ↔ ∃ l r : String, hay = l ++ pat ++ r := by
  unfold jsContains
  rw [containsSub_iff]
  constructor
  · rintro ⟨l, r, hd⟩
    refine ⟨⟨l⟩, ⟨r⟩, ?_⟩
    apply String.ext
    rw [String.data_append, String.data_append]
    exact hd
  · rintro ⟨l, r, rfl⟩
    exact ⟨l.data, r.data, by rw [String.data_append, String.data_append]⟩

set_option maxRecDepth 100000 in
theorem byteHex_eq_spec_fin :
    ∀ b : Fin 256, jsToUpperCase (pad2 (hexDigits b.val)) = specByteHex b.val := by
  decide

theorem byteHex_eq_spec (b : Nat) (hb : b < 256) :
    jsToUpperCase (pad2 (hexDigits b)) = specByteHex b :=
  byteHex_eq_spec_fin ⟨b, hb⟩

theorem mfgPat_eq_spec (id : Nat) (hid : id < 65536) :
    mfgPat id = specLEPattern id := by
  have h1 : id &&& 0xFF = id % 256 := by
    have h := Nat.and_pow_two_sub_one_eq_mod id 8
    norm_num at h
    exact h
  have hdivlt : id / 256 < 256 := Nat.div_lt_of_lt_mul (by omega)
  have h2 : (id >>> 8) &&& 0xFF = id / 256 := by
    have h := Nat.and_pow_two_sub_one_eq_mod (id >>> 8) 8
    norm_num at h
    rw [h, Nat.shiftRight_eq_div_pow]
    norm_num
    exact hdivlt
  unfold mfgPat specLEPattern
  rw [h1, h2, byteHex_eq_spec (id % 256) (Nat.mod_lt _ (by norm_num)),
    byteHex_eq_spec (id / 256) hdivlt]

theorem hexFold_data (p : List Nat) :
    ∀ acc : String,
      (p.foldl (fun r c => r ++ pad2 (hexDigits c)) acc).data =
        acc.data ++ (p.map (fun b => (pad2 (hexDigits b)).data)).flatten := by
  induction p with
  | nil =>
    intro acc
    simp
  | cons c t ih =>
    intro acc
    show (t.foldl _ (acc ++ pad2 (hexDigits c))).data = _
    rw [ih (acc ++ pad2 (hexDigits c)), String.data_append]
    simp

theorem hex_data (p : List Nat) :
    (hex p).data =
      ((p.map (fun b => (pad2 (hexDigits b)).data)).flatten).map Char.toUpper := by
  show ((p.foldl (fun r c => r ++ pad2 (hexDigits c)) "").data).map Char.toUpper
      = _
  rw [hexFold_data p ""]
  have h0 : ("" : String).data = [] := rfl
  rw [h0]
  simp

theorem byteHex_data_upper (b : Nat) (hb : b < 256) :
    ((pad2 (hexDigits b)).data).map Char.toUpper = (specByteHex b).data := by
  have h2 := congrArg String.data (byteHex_eq_spec b hb)
  exact h2

theorem hex_eq_specPayloadHex (p : List Nat) (hp : ∀ b ∈ p, b < 256) :
    hex p = specPayloadHex p := by
  apply String.ext
  rw [hex_data]
  show _ = (p.map (fun b => (specByteHex b).data)).flatten
  rw [List.map_flatten, List.map_map]
  congr 1
  apply List.map_congr_left
  intro b hb
  exact byteHex_data_upper b (hp b hb)

/-- C7: filter qualification.  With an empty allow-list every payload
qualifies.  With a non-empty allow-list of two-byte ids, a payload of
bytes qualifies exactly when its upper-case hexadecimal encoding
contains, as a substring, the marker `"FF"` followed by the two-byte
little-endian encoding (low byte first, two upper-case hex digits
each) of some id in the list — the spec-side encoding
(`specPayloadHex` / `specLEPattern`) is defined from the
specification's words and proved to coincide with the source's scan.
For allow-list `[0x0499]`, the payload whose hex is `"02011AFF9904"`
qualifies and the one whose hex is `"FFAA01"` does not. -/
theorem C7_filter_qualification :
    (∀ d : String, hasMfg d [] = true) ∧
    (∀ (p : List Nat) (ids : List Nat), ids ≠ [] → (∀ b ∈ p, b < 256) →
      (∀ id ∈ ids, id < 65536) →
      (hasMfg (hex p) ids = true ↔
        ∃ id ∈ ids, ∃ l r : String,
          specPayloadHex p = l ++ specLEPattern id ++ r)) ∧
    hasMfg (hex [0x02, 0x01, 0x1A, 0xFF, 0x99, 0x04]) [0x0499] = true ∧
    hasMfg (hex [0xFF, 0xAA, 0x01]) [0x0499] = false := by
  refine ⟨fun d => rfl, ?_, by decide, by decide⟩
  intro p ids hne hp hids
  unfold hasMfg
  rw [if_neg (by simpa [List.length_eq_zero] using hne)]
  rw [List.any_eq_true]
  constructor
  · rintro ⟨id, hid, hcon⟩
    refine ⟨id, hid, ?_⟩
    have h := (jsContains_iff (hex p) (mfgPat id)).1 hcon
    rwa [mfgPat_eq_spec id (hids id hid), hex_eq_specPayloadHex p hp] at h
  · rintro ⟨id, hid, l, r, heq⟩
    refine ⟨id, hid, ?_⟩
    apply (jsContains_iff (hex p) (mfgPat id)).2
    rw [mfgPat_eq_spec id (hids id hid), hex_eq_specPayloadHex p hp]
    exact ⟨l, r, heq⟩

/-- C7 witness: the Victron payload bytes `FF 99 04` qualify for
allow-list `[0x0499]`. -/
theorem C7_filter_qualification_witness :
    hasMfg (hex [0xFF, 0x99, 0x04]) [0x0499] = true :=
  (C7_filter_qualification.2.1 [0xFF, 0x99, 0x04] [0x0499] (by decide)
    (by decide) (by decide)).2 ⟨0x0499, by decide, "", "", by decide⟩

end VictronGw
